import Mathlib

/-!
Verification of the lottery-generator core: a shallow embedding of the
weighted-pool sampler, the historical-statistics weight builders, the
Markov-chain sequential sampler, and the ball-extraction control flow of
the physics simulation (real-time and headless), together with theorems
settling the behavioural claims stated about them.

Numbers that JavaScript holds as IEEE doubles are modelled as exact
rationals; fallible array indexing (`a[i]` possibly `undefined`) is
modelled with `Option`; the ambient `Math.random()` stream and the
injected `rng` callback are modelled as streams `Nat → ℚ` indexed by a
call counter.
-/

namespace Lottery

/-! ## CONFIG (config.js) -/

def TOTAL_NUMBERS : Nat := 45

def MAIN_NUMBERS_COUNT : Nat := 6

def TOTAL_DRAW_COUNT : Nat := 7

def WEIGHTED_POWER : Nat := 1

def ADAPTIVE_POWER : Nat := 10

def ADAPTIVE_DECAY_RATE : ℚ := 96 / 100

def ADAPTIVE_REWARD : ℚ := 1

def RECENT_LIMIT : Nat := 100

/-- `STEPS_PER_EXTRACTION` from `runHeadlessSimulation` (simulation.js). -/
def STEPS_PER_EXTRACTION : Nat := 30

/-! ## Weighted pool sampler (`createPoolAndPick`, part_003 lines 12-31) -/

/-- JS `Math.round` on the nonnegative values used here: `⌊x + 1/2⌋`. -/
def jsRound (q : ℚ) : ℤ := ⌊q + 1 / 2⌋

/-- The virtual pool: number `n` of weight `w` contributes
`Math.round(w ^ power * 10)` copies, iterating the weight entries in
order (JS objects iterate integer-like keys in ascending order, and every
weight list below is built ascending). -/
def poolFromWeights (weights : List (Nat × ℚ)) (power : Nat) : List Nat :=
  (weights.map fun p => List.replicate (jsRound (p.2 ^ power * 10)).toNat p.1).flatten

/-- One pool lookup: `pool[Math.floor(randomVal * pool.length)]`, `none`
standing for JS `undefined` on an out-of-range index. -/
def poolPick (pool : List Nat) (r : ℚ) : Option Nat :=
  let i : ℤ := ⌊r * (pool.length : ℚ)⌋
  if 0 ≤ i then pool[i.toNat]? else none

/-- The rejection loop of `createPoolAndPick`: repeat while
`result.length < CONFIG.TOTAL_DRAW_COUNT`, drawing `pool[⌊rng() * pool.length⌋]`
and appending it unless already present (`result.includes(num)`).
`fuel` bounds the number of iterations; `none` means the loop was still
running when the fuel ran out; `k` counts the `rng` calls made so far. -/
def cppLoop (pool : List Nat) (rng : Nat → ℚ) :
    Nat → Nat → List (Option Nat) → Option (List (Option Nat))
  | 0, _, result => if result.length < TOTAL_DRAW_COUNT then none else some result
  | fuel + 1, k, result =>
    if result.length < TOTAL_DRAW_COUNT then
      let num := poolPick pool (rng k)
      let result' := if result.contains num then result else result ++ [num]
      cppLoop pool rng fuel (k + 1) result'
    else some result

/-- `createPoolAndPick(weights, power, rng)`, run with `fuel` loop
iterations available. -/
def createPoolAndPick (weights : List (Nat × ℚ)) (power : Nat) (rng : Nat → ℚ)
    (fuel : Nat) : Option (List (Option Nat)) :=
  cppLoop (poolFromWeights weights power) rng fuel 0 []

/-! ## Headless simulation control flow (`runHeadlessSimulation`) -/

/-- The safety-break test at the end of each iteration of the headless
extraction loop: `selected.length < CONFIG.TOTAL_DRAW_COUNT &&
STEPS_PER_EXTRACTION * 1000 > 1000000`. -/
def headlessSafetyBreak (selLen : Nat) : Bool :=
  decide (selLen < TOTAL_DRAW_COUNT) && decide (STEPS_PER_EXTRACTION * 1000 > 1000000)

/-- The ball ids `1..TOTAL_NUMBERS` created at initialisation. -/
def initBallIds : List Nat := List.range' 1 TOTAL_NUMBERS

/-- The extraction `while` loop of `runHeadlessSimulation`.  The physics
of one `STEPS_PER_EXTRACTION`-step block and the suction-zone scan are
abstracted into `oracle`, which for attempt `k` on the current active
balls returns the id of the first ball found inside the suction zone (or
`none` when no ball satisfies the suction condition).  `none` as overall
result means the loop was still running when `fuel` ran out. -/
def headlessLoop (oracle : Nat → List Nat → Option Nat) :
    Nat → Nat → List Nat → List Nat → Option (List Nat × List Nat)
  | 0, _, _, _ => none
  | fuel + 1, k, balls, selected =>
    if selected.length < TOTAL_DRAW_COUNT then
      let step :=
        match oracle k balls with
        | some b => (balls.erase b, selected ++ [b])
        | none => (balls, selected)
      if headlessSafetyBreak step.2.length then some step
      else headlessLoop oracle fuel (k + 1) step.1 step.2
    else some (balls, selected)

/-- The fill loop after the extraction loop: while fewer than
`TOTAL_DRAW_COUNT` ids are selected, push `balls[⌊Math.random() * balls.length⌋]`
(`undefined`, i.e. `none`, when `balls` is empty) and splice that index
out.  Each iteration pushes exactly one entry, so `TOTAL_DRAW_COUNT`
fuel is enough. -/
def fillRemaining (rng : Nat → ℚ) :
    Nat → Nat → List Nat → List (Option Nat) → List (Option Nat)
  | 0, _, _, selected => selected
  | fuel + 1, k, balls, selected =>
    if selected.length < TOTAL_DRAW_COUNT then
      let i : ℤ := ⌊rng k * (balls.length : ℚ)⌋
      let pick : Option Nat := if 0 ≤ i then balls[i.toNat]? else none
      let balls' := if 0 ≤ i then balls.eraseIdx i.toNat else balls
      fillRemaining rng fuel (k + 1) balls' (selected ++ [pick])
    else selected

/-- `runHeadlessSimulation()`: run the extraction loop from the initial
45 balls, then fill any remaining slots from the still-active balls.
`fillRng` is the `Math.random()` stream consumed by the fill loop.
`none` means the extraction loop never exited within `fuel`. -/
def runHeadlessSimulation (oracle : Nat → List Nat → Option Nat)
    (fillRng : Nat → ℚ) (fuel : Nat) : Option (List (Option Nat)) :=
  match headlessLoop oracle fuel 0 initBallIds [] with
  | none => none
  | some (balls, selected) =>
    some (fillRemaining fillRng TOTAL_DRAW_COUNT 0 balls (selected.map some))

/-! ## Helper lemmas -/

theorem poolPick_nil (r : ℚ) : poolPick [] r = none := by
  simp [poolPick]

theorem cppLoop_stuck_none (rng : Nat → ℚ) :
    ∀ (fuel k : Nat) (res : List (Option Nat)), res.contains none = true →
      res.length < TOTAL_DRAW_COUNT → cppLoop [] rng fuel k res = none := by
  intro fuel
  induction fuel with
  | zero => intro k res _ hlen; simp [cppLoop, hlen]
  | succ n ih =>
    intro k res hmem hlen
    rw [cppLoop]
    simp only [if_pos hlen, poolPick_nil, hmem, if_pos]
    exact ih (k + 1) res hmem hlen

theorem cppLoop_nil (rng : Nat → ℚ) : ∀ (fuel k : Nat), cppLoop [] rng fuel k [] = none := by
  intro fuel k
  cases fuel with
  | zero => simp [cppLoop, TOTAL_DRAW_COUNT]
  | succ n =>
    rw [cppLoop]
    have h7 : ([] : List (Option Nat)).length < TOTAL_DRAW_COUNT := by
      simp [TOTAL_DRAW_COUNT]
    simp only [if_pos h7, poolPick_nil]
    have hc : ([] : List (Option Nat)).contains none = false := rfl
    simp only [hc, if_neg, List.nil_append, Bool.false_eq_true, ite_false]
    exact cppLoop_stuck_none rng n (k + 1) [none] rfl (by simp [TOTAL_DRAW_COUNT])

theorem headlessSafetyBreak_false (n : Nat) : headlessSafetyBreak n = false := by
  simp [headlessSafetyBreak, STEPS_PER_EXTRACTION]

theorem headlessLoop_stall (fillless : Nat → List Nat → Option Nat)
    (h : ∀ k balls, fillless k balls = none) :
    ∀ (fuel k : Nat) (balls : List Nat) (sel : List Nat),
      sel.length < TOTAL_DRAW_COUNT → headlessLoop fillless fuel k balls sel = none := by
  intro fuel
  induction fuel with
  | zero => intro k balls sel _; rfl
  | succ n ih =>
    intro k balls sel hlen
    rw [headlessLoop]
    simp only [if_pos hlen, h, headlessSafetyBreak_false, Bool.false_eq_true, ite_false]
    exact ih (k + 1) balls sel hlen

/-! ## Claim theorems: error handling and the safety break -/

/-- C2.  `SamplingExhausted` is never surfaced: when the weighted pool is
empty, `createPoolAndPick` neither raises an error nor returns fewer than
`TOTAL_DRAW_COUNT` numbers — it pushes one `undefined` and then spins in
the rejection loop forever (it never returns, for any amount of fuel). -/
theorem createPoolAndPick_empty_pool_hangs (weights : List (Nat × ℚ)) (power : Nat)
    (rng : Nat → ℚ) (fuel : Nat) (h : poolFromWeights weights power = []) :
    createPoolAndPick weights power rng fuel = none := by
  rw [createPoolAndPick, h]
  exact cppLoop_nil rng fuel 0

/-- C2 witness: the empty weight mapping produces an empty pool and the
call never returns. -/
theorem createPoolAndPick_empty_pool_hangs_witness :
    createPoolAndPick [] WEIGHTED_POWER (fun _ => 0) 1000 = none :=
  createPoolAndPick_empty_pool_hangs [] WEIGHTED_POWER (fun _ => 0) 1000 rfl

/-- C3 counterexample: the headless safety-break comparison
`STEPS_PER_EXTRACTION * 1000 > 1000000` compares the constants
`30 * 1000 = 30000` and `1000000`, and is false — not true as claimed. -/
theorem safety_break_comparison_not_true :
    ¬ (STEPS_PER_EXTRACTION * 1000 > 1000000) := by decide

/-- C3 (amended).  The safety-break condition of the headless extraction
loop compares compile-time constants and always evaluates to `false`
(`30 * 1000 = 30000 ≤ 1000000`), whatever the current selection count
below `TOTAL_DRAW_COUNT` is — so the documented safety break never
triggers. -/
theorem headless_safety_break_never_fires (n : Nat) : headlessSafetyBreak n = false :=
  headlessSafetyBreak_false n

/-- C1.  If no ball ever satisfies the suction condition, the headless
extraction loop of `runHeadlessSimulation` never exits (the always-false
safety break never fires), so the random fill of the remaining slots is
unreachable and the function does not terminate, contrary to the
guaranteed-termination claim. -/
theorem runHeadlessSimulation_stall_never_returns (fillRng : Nat → ℚ) (fuel : Nat) :
    runHeadlessSimulation (fun _ _ => none) fillRng fuel = none := by
  rw [runHeadlessSimulation]
  rw [headlessLoop_stall (fun _ _ => none) (fun _ _ => rfl) fuel 0 initBallIds []
    (by simp [TOTAL_DRAW_COUNT])]

/-! ## C4: the sampler on strictly positive weight mappings -/

/-- The numbers `1..45` written out. -/
def nums45 : List Nat :=
  [1, 2, 3, 4, 5, 6, 7, 8, 9, 10, 11, 12, 13, 14, 15, 16, 17, 18, 19, 20, 21, 22,
   23, 24, 25, 26, 27, 28, 29, 30, 31, 32, 33, 34, 35, 36, 37, 38, 39, 40, 41, 42,
   43, 44, 45]

/-- A weight mapping giving every number `1..45` the strictly positive
weight `1/10` (each then contributes `round((1/10)^1 * 10) = 1` pool
entry). -/
def tenthWeights : List (Nat × ℚ) := nums45.map fun n => (n, 1 / 10)

theorem flatten_map_singleton {α : Type} (l : List α) :
    (l.map fun a => [a]).flatten = l := by
  induction l with
  | nil => rfl
  | cons a t ih => simp [ih]

theorem poolFromWeights_const (l : List Nat) (c : ℚ) (power : Nat)
    (hc : (jsRound (c ^ power * 10)).toNat = 1) :
    poolFromWeights (l.map fun n => (n, c)) power = l := by
  rw [poolFromWeights, List.map_map]
  have : ((fun p : Nat × ℚ => List.replicate (jsRound (p.2 ^ power * 10)).toNat p.1) ∘
      fun n => (n, c)) = fun n : Nat => [n] := by
    funext n
    simp [hc]
  rw [this, flatten_map_singleton]

theorem poolPick_zero (pool : List Nat) : poolPick pool 0 = pool[0]? := by
  simp [poolPick]

theorem cppLoop_stuck_repeat (pool : List Nat) (rng : Nat → ℚ) (a : Nat)
    (hpick : ∀ k, poolPick pool (rng k) = some a) :
    ∀ (fuel k : Nat) (res : List (Option Nat)), res.contains (some a) = true →
      res.length < TOTAL_DRAW_COUNT → cppLoop pool rng fuel k res = none := by
  intro fuel
  induction fuel with
  | zero => intro k res _ hlen; simp [cppLoop, hlen]
  | succ n ih =>
    intro k res hmem hlen
    rw [cppLoop]
    simp only [if_pos hlen, hpick, hmem, if_pos]
    exact ih (k + 1) res hmem hlen

/-- C4 counterexample: the claim fails at an explicit input.  With every
number `1..45` carrying the strictly positive weight `1/10` and the rng
constantly `0` (a legal value in `[0,1)`), `createPoolAndPick` never
terminates: after the first pick the same pool element is drawn and
rejected forever, so no fuel bound ever suffices. -/
theorem createPoolAndPick_zero_rng_never_returns :
    ¬ ∃ fuel res, createPoolAndPick tenthWeights WEIGHTED_POWER (fun _ => 0) fuel = some res := by
  rintro ⟨fuel, res, h⟩
  have hc : (jsRound ((1 / 10 : ℚ) ^ WEIGHTED_POWER * 10)).toNat = 1 := by
    norm_num [jsRound, WEIGHTED_POWER]
  have hpool : poolFromWeights tenthWeights WEIGHTED_POWER = nums45 :=
    poolFromWeights_const nums45 (1 / 10) WEIGHTED_POWER hc
  rw [createPoolAndPick, hpool] at h
  have hpick0 : poolPick nums45 (0 : ℚ) = some 1 := by
    rw [poolPick_zero]
    rfl
  cases fuel with
  | zero => simp [cppLoop, TOTAL_DRAW_COUNT] at h
  | succ n =>
    rw [cppLoop] at h
    have h7 : ([] : List (Option Nat)).length < TOTAL_DRAW_COUNT := by
      simp [TOTAL_DRAW_COUNT]
    have hc0 : ([] : List (Option Nat)).contains (some 1) = false := rfl
    simp only [if_pos h7, hpick0, hc0, Bool.false_eq_true, ite_false, List.nil_append,
      Nat.zero_add] at h
    rw [cppLoop_stuck_repeat nums45 (fun _ => 0) 1 (fun _ => hpick0) n 1 [some 1] rfl
      (by simp [TOTAL_DRAW_COUNT])] at h
    exact Option.noConfusion h

theorem mem_poolFromWeights {m : Nat} {weights : List (Nat × ℚ)} {power : Nat}
    (h : m ∈ poolFromWeights weights power) : ∃ p ∈ weights, m = p.1 := by
  rw [poolFromWeights] at h
  rcases List.mem_flatten.1 h with ⟨l, hl, hm⟩
  rcases List.mem_map.1 hl with ⟨p, hp, rfl⟩
  exact ⟨p, hp, List.eq_of_mem_replicate hm⟩

theorem poolPick_mem {pool : List Nat} {r : ℚ} (hne : pool ≠ [])
    (h0 : 0 ≤ r) (h1 : r < 1) : ∃ m ∈ pool, poolPick pool r = some m := by
  have hlen : 0 < pool.length := List.length_pos.2 hne
  have hq : (0 : ℚ) < (pool.length : ℚ) := by exact_mod_cast hlen
  have hge : (0 : ℤ) ≤ ⌊r * (pool.length : ℚ)⌋ :=
    Int.floor_nonneg.2 (mul_nonneg h0 (le_of_lt hq))
  have hlt : ⌊r * (pool.length : ℚ)⌋ < (pool.length : ℤ) := by
    apply Int.floor_lt.2
    push_cast
    calc r * (pool.length : ℚ) < 1 * (pool.length : ℚ) := by
          exact mul_lt_mul_of_pos_right h1 hq
      _ = (pool.length : ℚ) := one_mul _
  have hnat : (⌊r * (pool.length : ℚ)⌋).toNat < pool.length := by
    omega
  refine ⟨pool[(⌊r * (pool.length : ℚ)⌋).toNat], List.getElem_mem hnat, ?_⟩
  rw [poolPick]
  simp only [if_pos hge]
  exact List.getElem?_eq_getElem hnat

theorem cppLoop_partial (pool : List Nat) (rng : Nat → ℚ)
    (hr : ∀ n, 0 ≤ rng n ∧ rng n < 1) :
    ∀ (fuel k : Nat) (res out : List (Option Nat)), res.Nodup →
      (∀ x ∈ res, ∃ m ∈ pool, x = some m) → res.length ≤ TOTAL_DRAW_COUNT →
      cppLoop pool rng fuel k res = some out →
      out.length = TOTAL_DRAW_COUNT ∧ out.Nodup ∧ ∀ x ∈ out, ∃ m ∈ pool, x = some m := by
  by_cases hne : pool = []
  · subst hne
    intro fuel k res out hnd hin hle hout
    have hres : res = [] := by
      cases res with
      | nil => rfl
      | cons x t =>
        rcases hin x (List.mem_cons_self x t) with ⟨m, hm, _⟩
        exact absurd hm (List.not_mem_nil m)
    subst hres
    rw [cppLoop_nil rng fuel k] at hout
    exact Option.noConfusion hout
  · intro fuel
    induction fuel with
    | zero =>
      intro k res out hnd hin hle hout
      rw [cppLoop] at hout
      by_cases hlt : res.length < TOTAL_DRAW_COUNT
      · rw [if_pos hlt] at hout; exact Option.noConfusion hout
      · rw [if_neg hlt] at hout
        obtain rfl : res = out := Option.some.inj hout
        exact ⟨by omega, hnd, hin⟩
    | succ n ih =>
      intro k res out hnd hin hle hout
      rw [cppLoop] at hout
      by_cases hlt : res.length < TOTAL_DRAW_COUNT
      · rw [if_pos hlt] at hout
        rcases poolPick_mem hne (hr k).1 (hr k).2 with ⟨m, hm, hpick⟩
        simp only [hpick] at hout
        by_cases hcon : res.contains (some m) = true
        · rw [if_pos hcon] at hout
          exact ih (k + 1) res out hnd hin hle hout
        · rw [if_neg hcon] at hout
          have hnotmem : (some m) ∉ res := by
            intro hmem
            exact hcon (List.elem_eq_true_of_mem hmem)
          refine ih (k + 1) (res ++ [some m]) out ?_ ?_ ?_ hout
          · simp [List.nodup_append, hnd, hnotmem]
          · intro x hx
            rcases List.mem_append.1 hx with hx | hx
            · exact hin x hx
            · rcases List.mem_singleton.1 hx with rfl
              exact ⟨m, hm, rfl⟩
          · rw [List.length_append, List.length_singleton]
            omega
      · rw [if_neg hlt] at hout
        obtain rfl : res = out := Option.some.inj hout
        exact ⟨by omega, hnd, hin⟩

/-- C4 (amended).  Partial correctness of `createPoolAndPick` on a
weight mapping whose keys all lie in `1..45` and an rng producing values
in `[0,1)`: whenever the call does return, it returns exactly
`TOTAL_DRAW_COUNT` pairwise-distinct entries, each a defined integer in
`[1, 45]`.  (Termination itself cannot be promised for every such input:
see the counterexample with the constant-zero rng; nor does strict
positivity of the weights prevent an empty pool, since a positive weight
can still round to zero pool entries.) -/
theorem createPoolAndPick_partial_correct (weights : List (Nat × ℚ)) (power : Nat)
    (rng : Nat → ℚ) (fuel : Nat) (res : List (Option Nat))
    (hw : ∀ p ∈ weights, 1 ≤ p.1 ∧ p.1 ≤ TOTAL_NUMBERS)
    (hr : ∀ n, 0 ≤ rng n ∧ rng n < 1)
    (hres : createPoolAndPick weights power rng fuel = some res) :
    res.length = TOTAL_DRAW_COUNT ∧ res.Nodup ∧
      ∀ x ∈ res, ∃ m, x = some m ∧ 1 ≤ m ∧ m ≤ TOTAL_NUMBERS := by
  rw [createPoolAndPick] at hres
  rcases cppLoop_partial (poolFromWeights weights power) rng hr fuel 0 [] res
      List.nodup_nil (by intro x hx; exact absurd hx (List.not_mem_nil x))
      (by simp [TOTAL_DRAW_COUNT]) hres with ⟨hlen, hnd, hin⟩
  refine ⟨hlen, hnd, ?_⟩
  intro x hx
  rcases hin x hx with ⟨m, hm, rfl⟩
  rcases mem_poolFromWeights hm with ⟨p, hp, rfl⟩
  exact ⟨p.1, rfl, (hw p hp).1, (hw p hp).2⟩

/-- The seven-number weight mapping and the rng stream used to witness a
terminating run of the sampler. -/
def sevenWeights : List (Nat × ℚ) :=
  [(1, 1 / 10), (2, 1 / 10), (3, 1 / 10), (4, 1 / 10), (5, 1 / 10), (6, 1 / 10), (7, 1 / 10)]

def sevenRng : Nat → ℚ := fun n => ((n % 7 : Nat) : ℚ) / 7

/-- C4 witness: at the concrete mapping `sevenWeights`, power
`WEIGHTED_POWER` and rng `sevenRng`, the call returns after 7 draws and
the returned list satisfies the amended claim. -/
theorem createPoolAndPick_partial_correct_witness :
    ([some 1, some 2, some 3, some 4, some 5, some 6, some 7] :
        List (Option Nat)).length = TOTAL_DRAW_COUNT ∧
      ([some 1, some 2, some 3, some 4, some 5, some 6, some 7] :
        List (Option Nat)).Nodup ∧
      ∀ x ∈ ([some 1, some 2, some 3, some 4, some 5, some 6, some 7] :
        List (Option Nat)), ∃ m, x = some m ∧ 1 ≤ m ∧ m ≤ TOTAL_NUMBERS := by
  have hev : createPoolAndPick sevenWeights WEIGHTED_POWER sevenRng 7 =
      some [some 1, some 2, some 3, some 4, some 5, some 6, some 7] := by
    have hp : poolFromWeights sevenWeights WEIGHTED_POWER = [1, 2, 3, 4, 5, 6, 7] := by
      norm_num [poolFromWeights, sevenWeights, jsRound, WEIGHTED_POWER]
    have s1 : cppLoop [1, 2, 3, 4, 5, 6, 7] sevenRng 7 0 [] =
        cppLoop [1, 2, 3, 4, 5, 6, 7] sevenRng 6 1 [some 1] := by
      conv_lhs => rw [cppLoop]
      norm_num [poolPick, sevenRng, TOTAL_DRAW_COUNT]
    have s2 : cppLoop [1, 2, 3, 4, 5, 6, 7] sevenRng 6 1 [some 1] =
        cppLoop [1, 2, 3, 4, 5, 6, 7] sevenRng 5 2 [some 1, some 2] := by
      conv_lhs => rw [cppLoop]
      norm_num [poolPick, sevenRng, TOTAL_DRAW_COUNT]
      try simp
    have s3 : cppLoop [1, 2, 3, 4, 5, 6, 7] sevenRng 5 2 [some 1, some 2] =
        cppLoop [1, 2, 3, 4, 5, 6, 7] sevenRng 4 3 [some 1, some 2, some 3] := by
      conv_lhs => rw [cppLoop]
      norm_num [poolPick, sevenRng, TOTAL_DRAW_COUNT]
      try simp
    have s4 : cppLoop [1, 2, 3, 4, 5, 6, 7] sevenRng 4 3 [some 1, some 2, some 3] =
        cppLoop [1, 2, 3, 4, 5, 6, 7] sevenRng 3 4 [some 1, some 2, some 3, some 4] := by
      conv_lhs => rw [cppLoop]
      norm_num [poolPick, sevenRng, TOTAL_DRAW_COUNT]
      try simp
    have s5 : cppLoop [1, 2, 3, 4, 5, 6, 7] sevenRng 3 4 [some 1, some 2, some 3, some 4] =
        cppLoop [1, 2, 3, 4, 5, 6, 7] sevenRng 2 5 [some 1, some 2, some 3, some 4, some 5] := by
      conv_lhs => rw [cppLoop]
      norm_num [poolPick, sevenRng, TOTAL_DRAW_COUNT]
      try simp
    have s6 : cppLoop [1, 2, 3, 4, 5, 6, 7] sevenRng 2 5
        [some 1, some 2, some 3, some 4, some 5] =
        cppLoop [1, 2, 3, 4, 5, 6, 7] sevenRng 1 6
          [some 1, some 2, some 3, some 4, some 5, some 6] := by
      conv_lhs => rw [cppLoop]
      norm_num [poolPick, sevenRng, TOTAL_DRAW_COUNT]
      try simp
    have s7 : cppLoop [1, 2, 3, 4, 5, 6, 7] sevenRng 1 6
        [some 1, some 2, some 3, some 4, some 5, some 6] =
        cppLoop [1, 2, 3, 4, 5, 6, 7] sevenRng 0 7
          [some 1, some 2, some 3, some 4, some 5, some 6, some 7] := by
      conv_lhs => rw [cppLoop]
      norm_num [poolPick, sevenRng, TOTAL_DRAW_COUNT]
      try simp
    have s8 : cppLoop [1, 2, 3, 4, 5, 6, 7] sevenRng 0 7
        [some 1, some 2, some 3, some 4, some 5, some 6, some 7] =
        some [some 1, some 2, some 3, some 4, some 5, some 6, some 7] := by
      conv_lhs => rw [cppLoop]
      norm_num [TOTAL_DRAW_COUNT]
    rw [createPoolAndPick, hp, s1, s2, s3, s4, s5, s6, s7, s8]
  exact createPoolAndPick_partial_correct sevenWeights WEIGHTED_POWER sevenRng 7
    [some 1, some 2, some 3, some 4, some 5, some 6, some 7]
    (by intro p hp; fin_cases hp <;> simp [TOTAL_NUMBERS])
    (by
      intro n
      simp only [sevenRng]
      constructor
      · positivity
      · rw [div_lt_one (by norm_num : (0 : ℚ) < 7)]
        exact_mod_cast Nat.mod_lt n (by norm_num))
    hev

/-! ## C9: the frequency-weighted mapping (`getWeightedNumbers`, part_003
lines 40-57) -/

/-- The base mapping `frequency[i] = 1` for `i = 1..TOTAL_NUMBERS` (keys
outside `1..45` are absent, modelled as `0`). -/
def baseFrequency : Nat → Nat := fun n => if 1 ≤ n ∧ n ≤ TOTAL_NUMBERS then 1 else 0

/-- One `if (frequency[num]) frequency[num] += 1` step: the JS guard is
truthiness of the current entry, i.e. present and nonzero. -/
def bumpFrequency (f : Nat → Nat) (num : Nat) : Nat → Nat :=
  if f num ≠ 0 then Function.update f num (f num + 1) else f

def drawFrequency (f : Nat → Nat) (draw : List Nat) : Nat → Nat :=
  draw.foldl bumpFrequency f

/-- The frequency mapping built by `getWeightedNumbers` from the full
supplied history. -/
def buildFrequency (history : List (List Nat)) : Nat → Nat :=
  history.foldl drawFrequency baseFrequency

/-- Total number of occurrences of `n` across all draws of the history. -/
def occurrences (history : List (List Nat)) (n : Nat) : Nat :=
  (history.map fun draw => draw.count n).sum

/-- The weight entries handed by `getWeightedNumbers` to the pool
sampler (JS object iteration: keys `1..45` ascending). -/
def frequencyWeights (history : List (List Nat)) : List (Nat × ℚ) :=
  (List.range' 1 TOTAL_NUMBERS).map fun n => (n, (buildFrequency history n : ℚ))

def getWeightedNumbers (rng : Nat → ℚ) (history : List (List Nat)) (fuel : Nat) :
    Option (List (Option Nat)) :=
  createPoolAndPick (frequencyWeights history) WEIGHTED_POWER rng fuel

/-- The invariant the frequency table keeps while it is built: every
number `1..45` has a nonzero entry and every other number has none. -/
def FreqInv (f : Nat → Nat) : Prop :=
  (∀ k, 1 ≤ k → k ≤ TOTAL_NUMBERS → 1 ≤ f k) ∧
    (∀ k, ¬ (1 ≤ k ∧ k ≤ TOTAL_NUMBERS) → f k = 0)

theorem bumpFrequency_spec (f : Nat → Nat) (num : Nat) (hf : FreqInv f) :
    FreqInv (bumpFrequency f num) ∧
      ∀ k, 1 ≤ k → k ≤ TOTAL_NUMBERS →
        bumpFrequency f num k = f k + (if num = k then 1 else 0) := by
  by_cases hin : 1 ≤ num ∧ num ≤ TOTAL_NUMBERS
  · have hnum : f num ≠ 0 := by
      have := hf.1 num hin.1 hin.2
      omega
    constructor
    · constructor
      · intro k h1 h2
        rw [bumpFrequency, if_pos hnum, Function.update]
        by_cases hk : k = num
        · simp [hk]
        · simp only [dif_neg hk]
          exact hf.1 k h1 h2
      · intro k hk
        rw [bumpFrequency, if_pos hnum, Function.update]
        have hkn : k ≠ num := by
          intro h
          exact hk (h ▸ hin)
        simp only [dif_neg hkn]
        exact hf.2 k hk
    · intro k h1 h2
      rw [bumpFrequency, if_pos hnum, Function.update]
      by_cases hk : num = k
      · subst hk
        simp
      · have hkn : k ≠ num := fun h => hk h.symm
        simp [dif_neg hkn, hk]
  · have hnum : f num = 0 := hf.2 num hin
    rw [bumpFrequency, if_neg (by simp [hnum])]
    refine ⟨hf, ?_⟩
    intro k h1 h2
    have : num ≠ k := by
      intro h
      exact hin (h ▸ ⟨h1, h2⟩)
    simp [this]

theorem drawFrequency_spec (draw : List Nat) :
    ∀ f, FreqInv f → FreqInv (drawFrequency f draw) ∧
      ∀ k, 1 ≤ k → k ≤ TOTAL_NUMBERS → drawFrequency f draw k = f k + draw.count k := by
  induction draw with
  | nil => intro f hf; exact ⟨hf, by simp [drawFrequency]⟩
  | cons a t ih =>
    intro f hf
    rcases bumpFrequency_spec f a hf with ⟨hinv, hval⟩
    rcases ih (bumpFrequency f a) hinv with ⟨hinv2, hval2⟩
    refine ⟨hinv2, ?_⟩
    intro k h1 h2
    have : drawFrequency f (a :: t) = drawFrequency (bumpFrequency f a) t := rfl
    rw [this, hval2 k h1 h2, hval k h1 h2, List.count_cons]
    by_cases h : a = k
    · subst h
      simp
      omega
    · simp [h, Ne.symm h, beq_iff_eq]

theorem buildFrequency_fold_spec (history : List (List Nat)) :
    ∀ f, FreqInv f → FreqInv (history.foldl drawFrequency f) ∧
      ∀ k, 1 ≤ k → k ≤ TOTAL_NUMBERS →
        history.foldl drawFrequency f k = f k + occurrences history k := by
  induction history with
  | nil => intro f hf; exact ⟨hf, by simp [occurrences]⟩
  | cons d t ih =>
    intro f hf
    rcases drawFrequency_spec d f hf with ⟨hinv, hval⟩
    rcases ih (drawFrequency f d) hinv with ⟨hinv2, hval2⟩
    refine ⟨hinv2, ?_⟩
    intro k h1 h2
    have : (d :: t).foldl drawFrequency f = t.foldl drawFrequency (drawFrequency f d) := rfl
    rw [this, hval2 k h1 h2, hval k h1 h2, occurrences]
    simp [occurrences]
    try omega

/-- C9.  The frequency-weighted mapping of `getWeightedNumbers` gives
every number `1..45` weight `1` (base) plus `1` per occurrence in the
history, hence always `≥ 1` and monotone in the occurrence count; on the
history `[[1,2,3,4,5,6],[1,2,3,4,5,6]]` the weight of `1` is `3` and the
weight of `7` is `1`. -/
theorem buildFrequency_base_plus_occurrences :
    (∀ history n, 1 ≤ n → n ≤ TOTAL_NUMBERS →
        buildFrequency history n = 1 + occurrences history n) ∧
      (∀ history n, 1 ≤ n → n ≤ TOTAL_NUMBERS → 1 ≤ buildFrequency history n) ∧
      (∀ h₁ h₂ n₁ n₂, 1 ≤ n₁ → n₁ ≤ TOTAL_NUMBERS → 1 ≤ n₂ → n₂ ≤ TOTAL_NUMBERS →
        occurrences h₁ n₁ ≤ occurrences h₂ n₂ →
        buildFrequency h₁ n₁ ≤ buildFrequency h₂ n₂) ∧
      buildFrequency [[1, 2, 3, 4, 5, 6], [1, 2, 3, 4, 5, 6]] 1 = 3 ∧
      buildFrequency [[1, 2, 3, 4, 5, 6], [1, 2, 3, 4, 5, 6]] 7 = 1 := by
  have hbase : FreqInv baseFrequency := by
    constructor
    · intro k h1 h2
      simp [baseFrequency, h1, h2]
    · intro k hk
      simp [baseFrequency, hk]
  have key : ∀ history n, 1 ≤ n → n ≤ TOTAL_NUMBERS →
      buildFrequency history n = 1 + occurrences history n := by
    intro history n h1 h2
    rw [buildFrequency, (buildFrequency_fold_spec history baseFrequency hbase).2 n h1 h2]
    simp [baseFrequency, h1, h2]
    try omega
  refine ⟨key, ?_, ?_, ?_, ?_⟩
  · intro history n h1 h2
    rw [key history n h1 h2]
    omega
  · intro h₁ h₂ n₁ n₂ ha hb hc hd hocc
    rw [key h₁ n₁ ha hb, key h₂ n₂ hc hd]
    omega
  · rw [key [[1, 2, 3, 4, 5, 6], [1, 2, 3, 4, 5, 6]] 1 (by norm_num) (by norm_num [TOTAL_NUMBERS])]
    decide
  · rw [key [[1, 2, 3, 4, 5, 6], [1, 2, 3, 4, 5, 6]] 7 (by norm_num) (by norm_num [TOTAL_NUMBERS])]
    decide

/-! ## C6: adaptive/trend weights and their cache (`getAdaptiveNumbers`,
part_003 lines 66-105) -/

/-- The base adaptive mapping `weights[i] = 1.0` for `i = 1..45` (absent
keys modelled as `0`). -/
def adaptiveBase : Nat → ℚ := fun n => if 1 ≤ n ∧ n ≤ TOTAL_NUMBERS then 1 else 0

/-- One history draw processed by the adaptive builder: first every key
`1..45` is multiplied by `ADAPTIVE_DECAY_RATE`, then each drawn number
that is a key (`weights[num] !== undefined`) gains `ADAPTIVE_REWARD`. -/
def adaptiveDraw (w : Nat → ℚ) (draw : List Nat) : Nat → ℚ :=
  let decayed : Nat → ℚ :=
    fun k => if 1 ≤ k ∧ k ≤ TOTAL_NUMBERS then w k * ADAPTIVE_DECAY_RATE else w k
  draw.foldl
    (fun g num =>
      if 1 ≤ num ∧ num ≤ TOTAL_NUMBERS then Function.update g num (g num + ADAPTIVE_REWARD)
      else g)
    decayed

/-- The adaptive weight mapping computed from a history: only the first
`RECENT_LIMIT` entries are used (`history.slice(0, 100)`), iterated from
index `history.length - 1` down to `0`, i.e. over the reversed slice. -/
def adaptiveWeightsFor (history : List (List Nat)) : Nat → ℚ :=
  ((history.take RECENT_LIMIT).reverse).foldl adaptiveDraw adaptiveBase

/-- The cache discipline of `getAdaptiveNumbers`: the pair returned is
(weights used for this call, cache after the call); the cached weights
are reused exactly when the cache is populated and the remembered
history length equals the current history's length. -/
def getAdaptiveState (cache : Option ((Nat → ℚ) × Nat)) (history : List (List Nat)) :
    (Nat → ℚ) × Option ((Nat → ℚ) × Nat) :=
  match cache with
  | some (w, n) =>
    if n = history.length then (w, some (w, n))
    else (adaptiveWeightsFor history, some (adaptiveWeightsFor history, history.length))
  | none => (adaptiveWeightsFor history, some (adaptiveWeightsFor history, history.length))

/-- `getAdaptiveNumbers`: sample from the weights the cache step
yields.  JS object iteration gives the entries for keys `1..45` in
ascending order. -/
def getAdaptiveNumbers (cache : Option ((Nat → ℚ) × Nat)) (rng : Nat → ℚ)
    (history : List (List Nat)) (fuel : Nat) :
    Option (List (Option Nat)) × Option ((Nat → ℚ) × Nat) :=
  let s := getAdaptiveState cache history
  (createPoolAndPick ((List.range' 1 TOTAL_NUMBERS).map fun n => (n, s.1 n))
      ADAPTIVE_POWER rng fuel,
    s.2)

/-- C6.  The adaptive cache is invalidated by history length only: a
cached mapping is served unchanged for any history of the remembered
length (even with different contents); it is recomputed exactly when the
length differs; and two successive calls with equal-length histories use
the same mapping, whatever their contents. -/
theorem getAdaptiveState_cache_by_length :
    (∀ (w : Nat → ℚ) (n : Nat) (h : List (List Nat)), n = h.length →
        getAdaptiveState (some (w, n)) h = (w, some (w, n))) ∧
      (∀ (w : Nat → ℚ) (n : Nat) (h : List (List Nat)), n ≠ h.length →
        getAdaptiveState (some (w, n)) h =
          (adaptiveWeightsFor h, some (adaptiveWeightsFor h, h.length))) ∧
      (∀ (cache : Option ((Nat → ℚ) × Nat)) (h₁ h₂ : List (List Nat)),
        h₂.length = h₁.length →
        (getAdaptiveState (getAdaptiveState cache h₁).2 h₂).1 =
          (getAdaptiveState cache h₁).1) := by
  refine ⟨?_, ?_, ?_⟩
  · intro w n h hn
    simp [getAdaptiveState, hn]
  · intro w n h hn
    simp [getAdaptiveState, hn]
  · intro cache h₁ h₂ hlen
    match cache with
    | none =>
      simp [getAdaptiveState, hlen]
    | some (w, n) =>
      by_cases hn : n = h₁.length
      · simp [getAdaptiveState, hn, hlen]
      · simp [getAdaptiveState, hn, hlen]

/-! ## C5: the Markov transition model and its cache
(`getSequentialNumbers`, part_003 lines 148-238) -/

/-- Inner transition-count object: an association list with numeric keys
kept ascending (JS objects iterate integer-like keys in ascending
order); `insertCount` is `obj[b] = (obj[b] || 0) + 1`. -/
def insertCount : List (Nat × Nat) → Nat → List (Nat × Nat)
  | [], b => [(b, 1)]
  | (k, c) :: rest, b =>
    if b < k then (b, 1) :: (k, c) :: rest
    else if b = k then (k, c + 1) :: rest
    else (k, c) :: insertCount rest b

/-- The transition model: source number → (destination number →
occurrence count). -/
abbrev TransModel := List (Nat × List (Nat × Nat))

/-- `transitions[a][b] = (transitions[a][b] || 0) + 1`, creating
`transitions[a]` when missing. -/
def bumpTrans : TransModel → Nat → Nat → TransModel
  | [], a, b => [(a, [(b, 1)])]
  | (k, inner) :: rest, a, b =>
    if a < k then (a, [(b, 1)]) :: (k, inner) :: rest
    else if a = k then (k, insertCount inner b) :: rest
    else (k, inner) :: bumpTrans rest a b

/-- Record a transition from each element of the shuffled sequence to
its immediate successor. -/
def recordSeq : TransModel → List Nat → TransModel
  | t, a :: b :: rest => recordSeq (bumpTrans t a b) (b :: rest)
  | t, _ => t

/-- One array swap `[seq[i], seq[j]] = [seq[j], seq[i]]`. -/
def swapAt (l : List Nat) (i j : Nat) : List Nat :=
  let vi := l.getD i 0
  let vj := l.getD j 0
  (l.set i vj).set j vi

/-- The Fisher-Yates loop `for (i = len - 1; i > 0; i--)
{ j = Math.floor(Math.random() * (i + 1)); swap i j }`; `k` counts the
`Math.random()` calls consumed so far. -/
def fyLoop (rng : Nat → ℚ) : Nat → List Nat → Nat → List Nat × Nat
  | 0, seq, k => (seq, k)
  | i + 1, seq, k =>
    let j : ℤ := ⌊rng k * (((i + 1 : Nat) : ℚ) + 1)⌋
    let seq' := if 0 ≤ j then swapAt seq (i + 1) j.toNat else seq
    fyLoop rng i seq' (k + 1)

/-- One historical draw folded into the transition model: draws shorter
than 6 numbers are skipped; otherwise the draw is shuffled and its
successive pairs recorded. -/
def buildStep (rng : Nat → ℚ) (acc : TransModel × Nat) (draw : List Nat) :
    TransModel × Nat :=
  if draw.length < 6 then acc
  else
    let s := fyLoop rng (draw.length - 1) draw acc.2
    (recordSeq acc.1 s.1, s.2)

/-- The transition model built from the whole history (the learning
phase of `getSequentialNumbers`). -/
def buildTransitions (rng : Nat → ℚ) (history : List (List Nat)) : TransModel :=
  (history.foldl (buildStep rng) ([], 0)).1

/-- `transitions[a][b]`, `0` when either key is absent. -/
def lookupCount (t : TransModel) (a b : Nat) : Nat :=
  match t.lookup a with
  | some inner => (inner.lookup b).getD 0
  | none => 0

/-- The caching discipline of `getSequentialNumbers`'s learning phase:
`if (!cachedTransitions) { build; cachedTransitions = transitions }`.
The pair is (transitions used by this call, cache after the call). -/
def seqTransUsed (cache : Option TransModel) (history : List (List Nat))
    (rng : Nat → ℚ) : TransModel × Option TransModel :=
  match cache with
  | some t => (t, some t)
  | none => (buildTransitions rng history, some (buildTransitions rng history))

/-- C5 counterexample: the cached transition model is not rebuilt when
the history length changes.  A first call on a one-draw history (with
the `Math.random()` stream constantly `0`) stores a model containing the
transition `2 → 3`; a second call on the empty history — a different
length — still uses that stored model, although building from the empty
history would contain no transition at all. -/
theorem seqTransUsed_stale_across_length_change :
    lookupCount
        (seqTransUsed (seqTransUsed none [[1, 2, 3, 4, 5, 6]] (fun _ => 0)).2
          [] (fun _ => 0)).1 2 3 = 1 ∧
      lookupCount (buildTransitions (fun _ => 0) []) 2 3 = 0 ∧
      ([[1, 2, 3, 4, 5, 6]] : List (List Nat)).length ≠
        ([] : List (List Nat)).length := by
  have hfy : fyLoop (fun _ => 0) 5 [1, 2, 3, 4, 5, 6] 0 = ([2, 3, 4, 5, 6, 1], 5) := by
    simp [fyLoop, swapAt]
  have hbuild : buildTransitions (fun _ => 0) [[1, 2, 3, 4, 5, 6]] =
      recordSeq [] [2, 3, 4, 5, 6, 1] := by
    rw [buildTransitions]
    simp only [List.foldl_cons, List.foldl_nil, buildStep]
    norm_num
    rw [hfy]
  refine ⟨?_, by decide, by decide⟩
  show lookupCount (buildTransitions (fun _ => 0) [[1, 2, 3, 4, 5, 6]]) 2 3 = 1
  rw [hbuild]
  decide

/-- C5 (amended).  The transition model is built on the first call and
cached unconditionally: a populated cache is served unchanged on every
later call, whatever the supplied history (its length included), and it
is recomputed only when the cache is empty. -/
theorem seqTransUsed_cache_unconditional :
    (∀ (t : TransModel) (h : List (List Nat)) (rng : Nat → ℚ),
        seqTransUsed (some t) h rng = (t, some t)) ∧
      ∀ (h : List (List Nat)) (rng : Nat → ℚ),
        seqTransUsed none h rng =
          (buildTransitions rng h, some (buildTransitions rng h)) :=
  ⟨fun _ _ _ => rfl, fun _ _ => rfl⟩

/-! ## C7: the sequential (Markov) draw contains no duplicates
(`getSequentialNumbers` sampling phase and `pickFromWeights`,
part_003 lines 186-257) -/

/-- The subtraction loop of `pickFromWeights`:
`randomWeight -= weight; if (randomWeight <= 0) return parseInt(num)`. -/
def pfwGo : List (Nat × ℚ) → ℚ → Option Nat
  | [], _ => none
  | (num, w) :: rest, r => if r - w ≤ 0 then some num else pfwGo rest (r - w)

/-- `pickFromWeights(weights, rng)`: scale one rng value by the total
weight and walk the entries; the final fallback returns the first key
(`none`, i.e. `NaN`, only when the weights object is empty). -/
def pickFromWeights (ws : List (Nat × ℚ)) (r : ℚ) : Option Nat :=
  let total := (ws.map Prod.snd).sum
  match pfwGo ws (r * total) with
  | some n => some n
  | none => ws.head?.map Prod.fst

/-- JS falsiness of `nextNum` in `if (!nextNum)`: `undefined` (or `NaN`)
and `0` are falsy. -/
def jsFalsy : Option Nat → Bool
  | none => true
  | some k => k == 0

/-- `available[Math.floor(rng() * available.length)]` where `available`
is every number `1..45` not yet in `result`. -/
def uniformPickAvail (result : List (Option Nat)) (r : ℚ) : Option Nat :=
  poolPick ((List.range' 1 TOTAL_NUMBERS).filter fun i => ! result.contains (some i)) r

/-- The loop state of the sampling phase: the numbers pushed so far, the
rng call counter, and `currentNum`. -/
structure SeqSt where
  result : List (Option Nat)
  ctr : Nat
  cur : Option Nat

/-- The transition-following attempt of one loop iteration: when the
current number has learned transitions (`transitions[currentNum]`) and
filtering out the already-picked numbers leaves candidates, pick from
their weights (consuming one rng value); otherwise `nextNum` stays
`undefined`.  Returns (`nextNum`, rng counter afterwards). -/
def seqPickWeighted (t : TransModel) (rng : Nat → ℚ) (s : SeqSt) : Option Nat × Nat :=
  match s.cur with
  | some cur =>
    match t.lookup cur with
    | some entries =>
      let cands := entries.filter fun p => ! s.result.contains (some p.1)
      if cands.isEmpty then (none, s.ctr)
      else (pickFromWeights (cands.map fun p => (p.1, (p.2 : ℚ))) (rng s.ctr), s.ctr + 1)
    | none => (none, s.ctr)
  | none => (none, s.ctr)

/-- One iteration of the `while (result.length < 6)` loop: follow a
learned transition when possible, otherwise (`if (!nextNum)`) fall back
to a uniform pick among the unpicked numbers `1..45`. -/
def seqStep (t : TransModel) (rng : Nat → ℚ) (s : SeqSt) : SeqSt :=
  let pick1 := seqPickWeighted t rng s
  if jsFalsy pick1.1 then
    let pick := uniformPickAvail s.result (rng pick1.2)
    { result := s.result ++ [pick], ctr := pick1.2 + 1, cur := pick }
  else
    { result := s.result ++ [pick1.1], ctr := pick1.2, cur := pick1.1 }

def seqLoop (t : TransModel) (rng : Nat → ℚ) : Nat → SeqSt → SeqSt
  | 0, s => s
  | fuel + 1, s => if s.result.length < 6 then seqLoop t rng fuel (seqStep t rng s) else s

/-- `getSequentialNumbers` sampling phase, parameterised by the (cached)
transition model: a uniformly random first number, five chained picks,
then a bonus drawn uniformly from the remaining numbers.  (For an rng
value in `[0,1)` the first number `Math.floor(r * 45) + 1` lies in
`1..45`.) -/
def getSequentialNumbers (t : TransModel) (rng : Nat → ℚ) : List (Option Nat) :=
  let firstNum : Nat := (⌊rng 0 * ((TOTAL_NUMBERS : Nat) : ℚ)⌋).toNat + 1
  let s0 : SeqSt := { result := [some firstNum], ctr := 1, cur := some firstNum }
  let s1 := seqLoop t rng 6 s0
  let bonus := uniformPickAvail s1.result (rng s1.ctr)
  s1.result ++ [bonus]

theorem pfwGo_mem {ws : List (Nat × ℚ)} {r : ℚ} {k : Nat} (h : pfwGo ws r = some k) :
    k ∈ ws.map Prod.fst := by
  induction ws generalizing r with
  | nil => exact Option.noConfusion h
  | cons p rest ih =>
    rw [pfwGo] at h
    by_cases hc : r - p.2 ≤ 0
    · rw [if_pos hc] at h
      obtain rfl : p.1 = k := Option.some.inj h
      exact List.mem_map_of_mem Prod.fst (List.mem_cons_self p rest)
    · rw [if_neg hc] at h
      exact List.mem_cons_of_mem _ (ih h)

theorem pickFromWeights_mem {ws : List (Nat × ℚ)} {r : ℚ} {k : Nat}
    (h : pickFromWeights ws r = some k) : k ∈ ws.map Prod.fst := by
  rw [pickFromWeights] at h
  rcases hgo : pfwGo ws (r * (ws.map Prod.snd).sum) with _ | n
  · rw [hgo] at h
    cases ws with
    | nil => exact Option.noConfusion h
    | cons p rest =>
      simp only [List.head?_cons, Option.map_some] at h
      obtain rfl : p.1 = k := Option.some.inj h
      exact List.mem_map_of_mem Prod.fst (List.mem_cons_self p rest)
  · rw [hgo] at h
    obtain rfl : n = k := Option.some.inj h
    exact pfwGo_mem hgo

theorem uniformPickAvail_spec {result : List (Option Nat)} {r : ℚ}
    (hlen : result.length < TOTAL_NUMBERS) (h0 : 0 ≤ r) (h1 : r < 1) :
    ∃ i, uniformPickAvail result r = some i ∧ (some i) ∉ result ∧
      1 ≤ i ∧ i ≤ TOTAL_NUMBERS := by
  set avail := (List.range' 1 TOTAL_NUMBERS).filter
    (fun i => ! result.contains (some i)) with havail
  have hne : avail ≠ [] := by
    intro hnil
    have hsub : (List.range' 1 TOTAL_NUMBERS).map some ⊆ result := by
      intro x hx
      rcases List.mem_map.1 hx with ⟨i, hi, rfl⟩
      by_contra hmem
      have : i ∈ avail := by
        rw [havail, List.mem_filter]
        refine ⟨hi, ?_⟩
        simp only [Bool.not_eq_eq_eq_not, Bool.not_true]
        by_contra hcon
        have hcon2 : result.contains (some i) = true := by
          cases hc : result.contains (some i) with
          | true => rfl
          | false => exact absurd hc hcon
        exact hmem (List.mem_of_elem_eq_true hcon2)
      rw [hnil] at this
      exact List.not_mem_nil i this
    have hnodup : ((List.range' 1 TOTAL_NUMBERS).map some).Nodup :=
      (List.nodup_range' 1 TOTAL_NUMBERS).map fun _ _ => Option.some.inj
    have := (List.subperm_of_subset hnodup hsub).length_le
    rw [List.length_map, List.length_range'] at this
    omega
  rcases poolPick_mem hne h0 h1 with ⟨m, hm, hpick⟩
  rw [havail, List.mem_filter] at hm
  rcases hm with ⟨hrange, hfilter⟩
  rw [List.mem_range'_1] at hrange
  refine ⟨m, hpick, ?_, hrange.1, by omega⟩
  intro hmem
  have hc : result.contains (some m) = true := List.elem_eq_true_of_mem hmem
  rw [hc] at hfilter
  exact Bool.noConfusion hfilter

theorem seqPickWeighted_not_picked {t : TransModel} {rng : Nat → ℚ} {s : SeqSt} {k : Nat}
    (hk : (seqPickWeighted t rng s).1 = some k) : (some k) ∉ s.result := by
  rw [seqPickWeighted] at hk
  rcases hcur : s.cur with _ | cur
  · simp only [hcur] at hk
    exact Option.noConfusion hk
  · simp only [hcur] at hk
    rcases hlk : t.lookup cur with _ | entries
    · simp only [hlk] at hk
      exact Option.noConfusion hk
    · simp only [hlk] at hk
      by_cases hemp : ((entries.filter fun p => ! s.result.contains (some p.1)).isEmpty) = true
      · rw [if_pos hemp] at hk
        exact Option.noConfusion hk
      · rw [if_neg hemp] at hk
        have hmem := pickFromWeights_mem hk
        rw [List.map_map] at hmem
        rcases List.mem_map.1 hmem with ⟨p, hp, hpk⟩
        have hpk : p.1 = k := hpk
        rcases (List.mem_filter).1 hp with ⟨_, hfil⟩
        intro hmem2
        rw [hpk] at hfil
        have hc : s.result.contains (some k) = true := List.elem_eq_true_of_mem hmem2
        rw [hc] at hfil
        exact Bool.noConfusion hfil

theorem seqStep_pushes (t : TransModel) (rng : Nat → ℚ) (s : SeqSt)
    (hr : ∀ n, 0 ≤ rng n ∧ rng n < 1) (hlen : s.result.length < TOTAL_NUMBERS) :
    ∃ x, (seqStep t rng s).result = s.result ++ [x] ∧ x ∉ s.result := by
  rw [seqStep]
  by_cases hf : jsFalsy (seqPickWeighted t rng s).1 = true
  · rw [if_pos hf]
    rcases uniformPickAvail_spec hlen (hr (seqPickWeighted t rng s).2).1
      (hr (seqPickWeighted t rng s).2).2 with ⟨i, hi, hnot, _, _⟩
    refine ⟨uniformPickAvail s.result (rng (seqPickWeighted t rng s).2), rfl, ?_⟩
    rw [hi]
    exact hnot
  · rw [if_neg hf]
    rcases hval : (seqPickWeighted t rng s).1 with _ | k
    · rw [hval] at hf
      exact absurd rfl hf
    · exact ⟨some k, rfl, seqPickWeighted_not_picked hval⟩

theorem seqLoop_spec (t : TransModel) (rng : Nat → ℚ)
    (hr : ∀ n, 0 ≤ rng n ∧ rng n < 1) :
    ∀ (fuel : Nat) (s : SeqSt), s.result.Nodup → s.result.length ≤ 6 →
      6 ≤ s.result.length + fuel →
      (seqLoop t rng fuel s).result.Nodup ∧ (seqLoop t rng fuel s).result.length = 6 := by
  intro fuel
  induction fuel with
  | zero =>
    intro s hnd hle hge
    rw [seqLoop]
    exact ⟨hnd, by omega⟩
  | succ n ih =>
    intro s hnd hle hge
    rw [seqLoop]
    by_cases hlt : s.result.length < 6
    · rw [if_pos hlt]
      have hlen45 : s.result.length < TOTAL_NUMBERS := by
        rw [TOTAL_NUMBERS]
        omega
      rcases seqStep_pushes t rng s hr hlen45 with ⟨x, hx, hnot⟩
      have hnd2 : (seqStep t rng s).result.Nodup := by
        rw [hx]
        simp [List.nodup_append, hnd, hnot]
      have hlen2 : (seqStep t rng s).result.length = s.result.length + 1 := by
        rw [hx, List.length_append, List.length_singleton]
      exact ih (seqStep t rng s) hnd2 (by omega) (by omega)
    · rw [if_neg hlt]
      exact ⟨hnd, by omega⟩

/-- C7.  For any transition model and any rng producing values in
`[0,1)`, the draw returned by `getSequentialNumbers` has 7 entries, its
first 6 entries are pairwise distinct, and its 7th (bonus) entry is
distinct from each of the first 6. -/
theorem getSequentialNumbers_distinct (t : TransModel) (rng : Nat → ℚ)
    (hr : ∀ n, 0 ≤ rng n ∧ rng n < 1) :
    (getSequentialNumbers t rng).length = TOTAL_DRAW_COUNT ∧
      ((getSequentialNumbers t rng).take 6).Nodup ∧
      ∀ x ∈ (getSequentialNumbers t rng).drop 6,
        x ∉ (getSequentialNumbers t rng).take 6 := by
  rw [getSequentialNumbers]
  set firstNum : Nat := (⌊rng 0 * ((TOTAL_NUMBERS : Nat) : ℚ)⌋).toNat + 1 with hfn
  set s0 : SeqSt := { result := [some firstNum], ctr := 1, cur := some firstNum } with hs0
  set s1 := seqLoop t rng 6 s0 with hs1
  rcases seqLoop_spec t rng hr 6 s0 (by simp [hs0]) (by simp [hs0]) (by simp [hs0]) with
    ⟨hnd1, hlen1⟩
  have hlen45 : s1.result.length < TOTAL_NUMBERS := by
    rw [hlen1, TOTAL_NUMBERS]
    omega
  rcases uniformPickAvail_spec hlen45 (hr s1.ctr).1 (hr s1.ctr).2 with ⟨i, hi, hnot, _, _⟩
  rw [hi]
  have htake : (s1.result ++ [some i]).take 6 = s1.result := by
    conv_lhs => rw [← hlen1]
    exact List.take_left s1.result [some i]
  have hdrop : (s1.result ++ [some i]).drop 6 = [some i] := by
    conv_lhs => rw [← hlen1]
    exact List.drop_left s1.result [some i]
  refine ⟨?_, ?_, ?_⟩
  · rw [List.length_append, List.length_singleton, hlen1]
    rfl
  · rw [htake]
    exact hnd1
  · rw [htake, hdrop]
    intro x hx
    rcases List.mem_singleton.1 hx with rfl
    exact hnot

/-- C7 witness: with the empty transition model and the constant-zero
rng the sampler returns `[1, 2, 3, 4, 5, 6, 7]` (as `some`s), which
satisfies all three parts of the claim. -/
theorem getSequentialNumbers_distinct_witness :
    (getSequentialNumbers [] (fun _ => 0)).length = TOTAL_DRAW_COUNT ∧
      ((getSequentialNumbers [] (fun _ => 0)).take 6).Nodup ∧
      ∀ x ∈ (getSequentialNumbers [] (fun _ => 0)).drop 6,
        x ∉ (getSequentialNumbers [] (fun _ => 0)).take 6 :=
  getSequentialNumbers_distinct [] (fun _ => 0)
    (fun _ => ⟨le_refl 0, zero_lt_one⟩)

/-! ## C8: equal-mass pairwise elastic collisions conserve kinetic
energy (`resolveCollisions`, simulation.js lines 153-189, and the
simplified collision of `runHeadlessSimulation`, lines 560-588) -/

/-- The velocity update of `resolveCollisions` for one colliding pair:
rotate by the collision angle (`c`, `s` its cosine and sine), apply the
1-D two-mass elastic formulas to the normal components (in the source
the rotated `vx1`, `vx2`), keep the tangential components (`vy1`,
`vy2`), rotate back.  Returns `((vx1', vy1'), (vx2', vy2'))`.  No
elasticity factor appears anywhere in this update. -/
def resolveCollisionPair (m1 m2 c s vx1 vy1 vx2 vy2 : ℚ) : (ℚ × ℚ) × (ℚ × ℚ) :=
  let vn1 := vx1 * c + vy1 * s
  let vt1 := vy1 * c - vx1 * s
  let vn2 := vx2 * c + vy2 * s
  let vt2 := vy2 * c - vx2 * s
  let vn1F := ((m1 - m2) * vn1 + 2 * m2 * vn2) / (m1 + m2)
  let vn2F := ((m2 - m1) * vn2 + 2 * m1 * vn1) / (m1 + m2)
  ((vn1F * c - vt1 * s, vt1 * c + vn1F * s), (vn2F * c - vt2 * s, vt2 * c + vn2F * s))

/-- The simplified (unit-mass) collision of `runHeadlessSimulation`:
along the unit normal `(nx, ny)` the normal velocity components are
swapped (`v1nFinal = v2n`, `v2nFinal = v1n`), the tangential components
along `(tx, ty) = (-ny, nx)` are kept. -/
def headlessCollidePair (nx ny vx1 vy1 vx2 vy2 : ℚ) : (ℚ × ℚ) × (ℚ × ℚ) :=
  let v1n := vx1 * nx + vy1 * ny
  let v2n := vx2 * nx + vy2 * ny
  let v1nFinal := v2n
  let v2nFinal := v1n
  let tx := -ny
  let ty := nx
  let v1t := vx1 * tx + vy1 * ty
  let v2t := vx2 * tx + vy2 * ty
  ((v1nFinal * nx + v1t * tx, v1nFinal * ny + v1t * ty),
    (v2nFinal * nx + v2t * tx, v2nFinal * ny + v2t * ty))

/-- C8.  For two colliding balls of equal mass `m > 0`, one application
of the pairwise elastic-collision resolution conserves the total kinetic
energy exactly over the reals, exchanges the normal-axis velocity
components and leaves the tangential components unchanged — both in
`resolveCollisions` (rotation form, `c² + s² = 1`) and in the headless
simplified form (unit normal `(nx, ny)`). -/
theorem collision_equal_mass_elastic (m c s vx1 vy1 vx2 vy2 : ℚ)
    (hm : 0 < m) (hcs : c ^ 2 + s ^ 2 = 1) :
    ((resolveCollisionPair m m c s vx1 vy1 vx2 vy2).1.1 ^ 2 +
        (resolveCollisionPair m m c s vx1 vy1 vx2 vy2).1.2 ^ 2 +
        (resolveCollisionPair m m c s vx1 vy1 vx2 vy2).2.1 ^ 2 +
        (resolveCollisionPair m m c s vx1 vy1 vx2 vy2).2.2 ^ 2 =
        vx1 ^ 2 + vy1 ^ 2 + vx2 ^ 2 + vy2 ^ 2) ∧
      ((resolveCollisionPair m m c s vx1 vy1 vx2 vy2).1.1 * c +
          (resolveCollisionPair m m c s vx1 vy1 vx2 vy2).1.2 * s = vx2 * c + vy2 * s) ∧
      ((resolveCollisionPair m m c s vx1 vy1 vx2 vy2).2.1 * c +
          (resolveCollisionPair m m c s vx1 vy1 vx2 vy2).2.2 * s = vx1 * c + vy1 * s) ∧
      ((resolveCollisionPair m m c s vx1 vy1 vx2 vy2).1.2 * c -
          (resolveCollisionPair m m c s vx1 vy1 vx2 vy2).1.1 * s = vy1 * c - vx1 * s) ∧
      ((resolveCollisionPair m m c s vx1 vy1 vx2 vy2).2.2 * c -
          (resolveCollisionPair m m c s vx1 vy1 vx2 vy2).2.1 * s = vy2 * c - vx2 * s) ∧
      ∀ nx ny : ℚ, nx ^ 2 + ny ^ 2 = 1 →
        ((headlessCollidePair nx ny vx1 vy1 vx2 vy2).1.1 ^ 2 +
            (headlessCollidePair nx ny vx1 vy1 vx2 vy2).1.2 ^ 2 +
            (headlessCollidePair nx ny vx1 vy1 vx2 vy2).2.1 ^ 2 +
            (headlessCollidePair nx ny vx1 vy1 vx2 vy2).2.2 ^ 2 =
            vx1 ^ 2 + vy1 ^ 2 + vx2 ^ 2 + vy2 ^ 2) ∧
          ((headlessCollidePair nx ny vx1 vy1 vx2 vy2).1.1 * nx +
              (headlessCollidePair nx ny vx1 vy1 vx2 vy2).1.2 * ny = vx2 * nx + vy2 * ny) ∧
          ((headlessCollidePair nx ny vx1 vy1 vx2 vy2).2.1 * nx +
              (headlessCollidePair nx ny vx1 vy1 vx2 vy2).2.2 * ny = vx1 * nx + vy1 * ny) ∧
          ((headlessCollidePair nx ny vx1 vy1 vx2 vy2).1.1 * (-ny) +
              (headlessCollidePair nx ny vx1 vy1 vx2 vy2).1.2 * nx =
              vx1 * (-ny) + vy1 * nx) ∧
          ((headlessCollidePair nx ny vx1 vy1 vx2 vy2).2.1 * (-ny) +
              (headlessCollidePair nx ny vx1 vy1 vx2 vy2).2.2 * nx =
              vx2 * (-ny) + vy2 * nx) := by
  have hne : m + m ≠ 0 := by positivity
  have h1 : ((m - m) * (vx1 * c + vy1 * s) + 2 * m * (vx2 * c + vy2 * s)) / (m + m) =
      vx2 * c + vy2 * s := by
    field_simp
    ring
  have h2 : ((m - m) * (vx2 * c + vy2 * s) + 2 * m * (vx1 * c + vy1 * s)) / (m + m) =
      vx1 * c + vy1 * s := by
    field_simp
    ring
  have hr : resolveCollisionPair m m c s vx1 vy1 vx2 vy2 =
      (((vx2 * c + vy2 * s) * c - (vy1 * c - vx1 * s) * s,
          (vy1 * c - vx1 * s) * c + (vx2 * c + vy2 * s) * s),
        ((vx1 * c + vy1 * s) * c - (vy2 * c - vx2 * s) * s,
          (vy2 * c - vx2 * s) * c + (vx1 * c + vy1 * s) * s)) := by
    rw [resolveCollisionPair]
    rw [h1, h2]
  refine ⟨?_, ?_, ?_, ?_, ?_, ?_⟩
  · simp only [hr]
    linear_combination (vx1 ^ 2 + vy1 ^ 2 + vx2 ^ 2 + vy2 ^ 2) * (c ^ 2 + s ^ 2 + 1) * hcs
  · simp only [hr]
    linear_combination (vx2 * c + vy2 * s) * hcs
  · simp only [hr]
    linear_combination (vx1 * c + vy1 * s) * hcs
  · simp only [hr]
    linear_combination (vy1 * c - vx1 * s) * hcs
  · simp only [hr]
    linear_combination (vy2 * c - vx2 * s) * hcs
  · intro nx ny hn
    simp only [headlessCollidePair]
    refine ⟨?_, ?_, ?_, ?_, ?_⟩
    · linear_combination (vx1 ^ 2 + vy1 ^ 2 + vx2 ^ 2 + vy2 ^ 2) * (nx ^ 2 + ny ^ 2 + 1) * hn
    · linear_combination (vx2 * nx + vy2 * ny) * hn
    · linear_combination (vx1 * nx + vy1 * ny) * hn
    · linear_combination (vy1 * nx - vx1 * ny) * hn
    · linear_combination (vy2 * nx - vx2 * ny) * hn

/-- C8 witness: the theorem instantiated at mass `1`, collision angle
`0` (`c = 1`, `s = 0`) and velocities `(3,4)`, `(1,2)`. -/
theorem collision_equal_mass_elastic_witness :
    ((resolveCollisionPair 1 1 1 0 3 4 1 2).1.1 ^ 2 +
        (resolveCollisionPair 1 1 1 0 3 4 1 2).1.2 ^ 2 +
        (resolveCollisionPair 1 1 1 0 3 4 1 2).2.1 ^ 2 +
        (resolveCollisionPair 1 1 1 0 3 4 1 2).2.2 ^ 2 =
        (3 : ℚ) ^ 2 + 4 ^ 2 + 1 ^ 2 + 2 ^ 2) ∧
      ((resolveCollisionPair 1 1 1 0 3 4 1 2).1.1 * 1 +
          (resolveCollisionPair 1 1 1 0 3 4 1 2).1.2 * 0 = 1 * 1 + 2 * 0) ∧
      ((resolveCollisionPair 1 1 1 0 3 4 1 2).2.1 * 1 +
          (resolveCollisionPair 1 1 1 0 3 4 1 2).2.2 * 0 = 3 * 1 + 4 * 0) ∧
      ((resolveCollisionPair 1 1 1 0 3 4 1 2).1.2 * 1 -
          (resolveCollisionPair 1 1 1 0 3 4 1 2).1.1 * 0 = 4 * 1 - 3 * 0) ∧
      ((resolveCollisionPair 1 1 1 0 3 4 1 2).2.2 * 1 -
          (resolveCollisionPair 1 1 1 0 3 4 1 2).2.1 * 0 = 2 * 1 - 1 * 0) ∧
      ∀ nx ny : ℚ, nx ^ 2 + ny ^ 2 = 1 →
        ((headlessCollidePair nx ny 3 4 1 2).1.1 ^ 2 +
            (headlessCollidePair nx ny 3 4 1 2).1.2 ^ 2 +
            (headlessCollidePair nx ny 3 4 1 2).2.1 ^ 2 +
            (headlessCollidePair nx ny 3 4 1 2).2.2 ^ 2 =
            (3 : ℚ) ^ 2 + 4 ^ 2 + 1 ^ 2 + 2 ^ 2) ∧
          ((headlessCollidePair nx ny 3 4 1 2).1.1 * nx +
              (headlessCollidePair nx ny 3 4 1 2).1.2 * ny = 1 * nx + 2 * ny) ∧
          ((headlessCollidePair nx ny 3 4 1 2).2.1 * nx +
              (headlessCollidePair nx ny 3 4 1 2).2.2 * ny = 3 * nx + 4 * ny) ∧
          ((headlessCollidePair nx ny 3 4 1 2).1.1 * (-ny) +
              (headlessCollidePair nx ny 3 4 1 2).1.2 * nx = 3 * (-ny) + 4 * nx) ∧
          ((headlessCollidePair nx ny 3 4 1 2).2.1 * (-ny) +
              (headlessCollidePair nx ny 3 4 1 2).2.2 * nx = 1 * (-ny) + 2 * nx) :=
  collision_equal_mass_elastic 1 1 0 3 4 1 2 (by norm_num) (by norm_num)

/-! ## C10: extraction invariants of the real-time loop
(`animateSimulation`, simulation.js lines 393-446, and
`initSimulation`, lines 137-148) -/

/-- The extraction-relevant state of the real-time simulation: the
active balls (by id, in array order) and the extracted ids. -/
structure SimState where
  simBalls : List Nat
  simSelected : List Nat
deriving DecidableEq

/-- `initSimulation()`: 45 balls with ids `1..45`, nothing selected. -/
def initSimulation : SimState :=
  { simBalls := initBallIds, simSelected := [] }

/-- The extraction block of one `animateSimulation` frame.  The physics
update and the suction-zone distance test are abstracted into `inZone`
(whether a ball currently sits in the suction zone); `timingOk` is the
extraction-interval gate.  When extraction is still open and the gate
allows it, the first in-zone ball (array scan order) is pushed onto
`simSelected` and spliced out of `simBalls` in the same step; at most
one ball per frame (`break`). -/
def frameExtract (inZone : Nat → Bool) (timingOk : Bool) (s : SimState) : SimState :=
  if s.simSelected.length < TOTAL_DRAW_COUNT ∧ timingOk = true then
    match s.simBalls.find? inZone with
    | some b =>
      { simBalls := s.simBalls.eraseP inZone, simSelected := s.simSelected ++ [b] }
    | none => s
  else s

/-- A run of the animation loop: one `frameExtract` per frame, each
frame with its own suction predicate and interval gate. -/
def runFrames : List ((Nat → Bool) × Bool) → SimState → SimState
  | [], s => s
  | f :: rest, s => runFrames rest (frameExtract f.1 f.2 s)

/-- The invariant the extraction loop maintains. -/
def SimInv (s : SimState) : Prop :=
  s.simBalls.Nodup ∧ s.simSelected.Nodup ∧
    (∀ x ∈ s.simSelected, x ∉ s.simBalls) ∧
    s.simSelected.length ≤ TOTAL_DRAW_COUNT

theorem find?_eraseP_not_mem {l : List Nat} {p : Nat → Bool} {b : Nat}
    (hnd : l.Nodup) (hfind : l.find? p = some b) : b ∉ l.eraseP p := by
  induction l with
  | nil => exact Option.noConfusion hfind
  | cons a t ih =>
    by_cases hpa : p a = true
    · rw [List.find?_cons_of_pos _ hpa] at hfind
      obtain rfl : a = b := Option.some.inj hfind
      rw [List.eraseP_cons_of_pos hpa]
      exact (List.nodup_cons.1 hnd).1
    · have hpa2 : p a = false := by
        cases hv : p a with
        | true => exact absurd hv hpa
        | false => rfl
      rw [List.find?_cons_of_neg _ hpa] at hfind
      rw [List.eraseP_cons_of_neg hpa]
      have hbt : b ∈ t := List.mem_of_find?_eq_some hfind
      have hba : b ≠ a := by
        intro h
        exact (List.nodup_cons.1 hnd).1 (h ▸ hbt)
      intro hmem
      rcases List.mem_cons.1 hmem with h | h
      · exact hba h
      · exact ih (List.nodup_cons.1 hnd).2 hfind h

theorem frameExtract_inv (inZone : Nat → Bool) (timingOk : Bool) (s : SimState)
    (h : SimInv s) : SimInv (frameExtract inZone timingOk s) := by
  rcases h with ⟨hballs, hsel, hdisj, hlen⟩
  rw [frameExtract]
  by_cases hcond : s.simSelected.length < TOTAL_DRAW_COUNT ∧ timingOk = true
  · rw [if_pos hcond]
    rcases hfind : s.simBalls.find? inZone with _ | b
    · exact ⟨hballs, hsel, hdisj, hlen⟩
    · have hsub : List.Sublist (s.simBalls.eraseP inZone) s.simBalls := List.eraseP_sublist _
      have hbmem : b ∈ s.simBalls := List.mem_of_find?_eq_some hfind
      have hbnot : b ∉ s.simSelected := fun hb => hdisj b hb hbmem
      refine ⟨hsub.nodup hballs, ?_, ?_, ?_⟩
      · simp [List.nodup_append, hsel, hbnot]
      · intro x hx
        rcases List.mem_append.1 hx with hx | hx
        · intro hmem
          exact hdisj x hx (hsub.subset hmem)
        · rcases List.mem_singleton.1 hx with rfl
          exact find?_eraseP_not_mem hballs hfind
      · rw [List.length_append, List.length_singleton]
        omega
  · rw [if_neg hcond]
    exact ⟨hballs, hsel, hdisj, hlen⟩

theorem runFrames_inv (frames : List ((Nat → Bool) × Bool)) :
    ∀ s : SimState, SimInv s → SimInv (runFrames frames s) := by
  induction frames with
  | nil => intro s h; exact h
  | cons f rest ih =>
    intro s h
    exact ih (frameExtract f.1 f.2 s) (frameExtract_inv f.1 f.2 s h)

/-- C10.  In the real-time loop: (a) from `initSimulation`, after any
sequence of frames the selected ids are pairwise distinct, disjoint from
the active balls and at most `TOTAL_DRAW_COUNT` many; (b) each frame
extracts at most one ball; (c) an extracted ball's id is appended to
`simSelected` in the same step in which that ball is removed from
`simBalls`; (d) once `TOTAL_DRAW_COUNT` ids are selected, a frame
changes nothing. -/
theorem animateSimulation_extraction_invariants :
    (∀ frames : List ((Nat → Bool) × Bool),
        (runFrames frames initSimulation).simSelected.Nodup ∧
          (∀ x ∈ (runFrames frames initSimulation).simSelected,
            x ∉ (runFrames frames initSimulation).simBalls) ∧
          (runFrames frames initSimulation).simSelected.length ≤ TOTAL_DRAW_COUNT) ∧
      (∀ (z : Nat → Bool) (tk : Bool) (s : SimState),
        (frameExtract z tk s).simSelected.length ≤ s.simSelected.length + 1) ∧
      (∀ (z : Nat → Bool) (tk : Bool) (s : SimState) (b : Nat),
        s.simSelected.length < TOTAL_DRAW_COUNT → tk = true →
        s.simBalls.find? z = some b →
        frameExtract z tk s =
          { simBalls := s.simBalls.eraseP z, simSelected := s.simSelected ++ [b] }) ∧
      (∀ (z : Nat → Bool) (tk : Bool) (s : SimState),
        s.simSelected.length = TOTAL_DRAW_COUNT → frameExtract z tk s = s) := by
  refine ⟨?_, ?_, ?_, ?_⟩
  · intro frames
    have hinit : SimInv initSimulation := by
      refine ⟨?_, List.nodup_nil, ?_, ?_⟩
      · exact List.nodup_range' 1 TOTAL_NUMBERS
      · intro x hx
        exact absurd hx (List.not_mem_nil x)
      · simp [initSimulation]
    rcases runFrames_inv frames initSimulation hinit with ⟨_, h2, h3, h4⟩
    exact ⟨h2, h3, h4⟩
  · intro z tk s
    rw [frameExtract]
    by_cases hcond : s.simSelected.length < TOTAL_DRAW_COUNT ∧ tk = true
    · rw [if_pos hcond]
      rcases hfind : s.simBalls.find? z with _ | b
      · simp only [hfind]
        omega
      · simp only [hfind]
        simp
    · rw [if_neg hcond]
      omega
  · intro z tk s b hlt htk hfind
    rw [frameExtract, if_pos ⟨hlt, htk⟩, hfind]
  · intro z tk s hlen
    rw [frameExtract, if_neg]
    intro hcond
    omega

end Lottery
